import Mathlib

/-!
# Verification of the release-radar script

A shallow embedding of `src/script.py` (a Spotify "release radar" batch
script) together with proofs about its behaviour.  Python datetimes are
modelled as integer second counts on the proleptic Gregorian calendar,
Python dicts as association lists (which are insertion ordered, exactly
like `dict`), Python sets as duplicate-free lists, and the remote catalog
(Spotify) as explicit function-valued inputs.
-/

namespace ReleaseRadar

/-- Python truthiness of `Optional[str]`: `None` and `""` are falsy. -/
def pyTruthy : Option String → Bool
  | none => false
  | some s => s ≠ ""

/-- ASCII lower-casing of one character (`str.lower`, restricted to the
ASCII range, which is what track names in the claims exercise). -/
def lowerChar (c : Char) : Char :=
  if 'A' ≤ c ∧ c ≤ 'Z' then Char.ofNat (c.toNat + 32) else c

/-- Python `str.strip` whitespace: space, tab, newline, carriage return,
vertical tab, form feed. -/
def isStripChar (c : Char) : Bool :=
  c = ' ' ∨ c = '\t' ∨ c = '\n' ∨ c = '\r' ∨ c = '\x0b' ∨ c = '\x0c'

/-- Strip leading and trailing whitespace from a character list. -/
def stripChars (l : List Char) : List Char :=
  ((l.dropWhile isStripChar).reverse.dropWhile isStripChar).reverse

/-- `s.lower().strip()` — the normalisation the script applies to track and
album names before comparing them (lines 258, 270, 298-299, 361). -/
def pyNorm (s : String) : String := ⟨stripChars (s.data.map lowerChar)⟩

/-! ## Dates

`datetime.datetime` values are modelled as seconds since 0000-03-01 of the
proleptic Gregorian calendar (the reference point is irrelevant; only
differences and comparisons are used).  `civilDays` is the standard
days-from-civil calculation, valid for year ≥ 1 and a valid month/day. -/

/-- Days from 0000-03-01 (proleptic Gregorian) to year `y`, month `m`,
day `d`; requires `1 ≤ y`, `1 ≤ m ≤ 12`, `1 ≤ d`. -/
def civilDays (y m d : Nat) : Nat :=
  let y' := if m ≤ 2 then y - 1 else y
  let era := y' / 400
  let yoe := y' % 400
  let mp  := if 2 < m then m - 3 else m + 9
  let doy := (153 * mp + 2) / 5 + d - 1
  let doe := yoe * 365 + yoe / 4 - yoe / 100 + doy
  era * 146097 + doe

/-- A `datetime.datetime(y, m, d, h, mi, s)` as an integer second count. -/
def dtSec (y m d h mi s : Nat) : Int :=
  (civilDays y m d : Int) * 86400 + (h : Int) * 3600 + (mi : Int) * 60 + (s : Int)

/-- Number of days in a month of the Gregorian calendar. -/
def daysInMonth (y m : Nat) : Nat :=
  if m = 2 then
    (if y % 4 = 0 ∧ (y % 100 ≠ 0 ∨ y % 400 = 0) then 29 else 28)
  else if m = 4 ∨ m = 6 ∨ m = 9 ∨ m = 11 then 30 else 31

/-- Does the character list consist of one or more decimal digits? -/
def isDigits (l : List Char) : Bool := l ≠ [] && l.all Char.isDigit

/-- Numeric value of a digit list. -/
def natOfDigits (l : List Char) : Nat :=
  l.foldl (fun n c => n * 10 + (c.toNat - 48)) 0

/-- Split a character list on `'-'` separators, like `str.split("-")`
(every separator starts a new group; an empty input gives one empty
group). -/
def splitDash : List Char → List (List Char)
  | [] => [[]]
  | c :: cs =>
    if c = '-' then [] :: splitDash cs
    else
      match splitDash cs with
      | [] => [[c]]
      | g :: gs => (c :: g) :: gs

/-- `parse_release_date` (script.py lines 47-56).  CPython's `strptime`
compiles `%Y` to exactly four digits, `%m` and `%d` to one or two digits
in range (month 1-12, day 1-31), requires the whole string to be
consumed, and `datetime` construction rejects year 0 and a day beyond
the month's length.  So: a 4-character string parses as a 4-digit year
`≥ 1`, January 1 at midnight; a 7-character string as `"%Y-%m"` (4-digit
year, 2-digit month, day 1); anything else as `"%Y-%m-%d"` (4-digit
year, 1-2 digit month and day, day validated against the month).  Any
failure is caught and mapped to `none` (the Python `except` returns
`None`). -/
def parse_release_date (s : String) : Option Int :=
  let l := s.data
  if l.length = 4 then
    if isDigits l ∧ 1 ≤ natOfDigits l then
      some (dtSec (natOfDigits l) 1 1 0 0 0)
    else none
  else if l.length = 7 then
    match splitDash l with
    | [ys, ms] =>
      if isDigits ys ∧ ys.length = 4 ∧ 1 ≤ natOfDigits ys ∧
         isDigits ms ∧ ms.length = 2 ∧
         1 ≤ natOfDigits ms ∧ natOfDigits ms ≤ 12 then
        some (dtSec (natOfDigits ys) (natOfDigits ms) 1 0 0 0)
      else none
    | _ => none
  else
    match splitDash l with
    | [ys, ms, ds] =>
      if isDigits ys ∧ ys.length = 4 ∧ 1 ≤ natOfDigits ys ∧
         isDigits ms ∧ ms.length ≤ 2 ∧
         1 ≤ natOfDigits ms ∧ natOfDigits ms ≤ 12 ∧
         isDigits ds ∧ ds.length ≤ 2 ∧
         1 ≤ natOfDigits ds ∧
         natOfDigits ds ≤ daysInMonth (natOfDigits ys) (natOfDigits ms) then
        some (dtSec (natOfDigits ys) (natOfDigits ms) (natOfDigits ds) 0 0 0)
      else none
    | _ => none

/-- The recency filter of `check_new_releases` (lines 192-194): a parsed
release date passes iff it is not `None` and not strictly before
`now - 7 days`. -/
def recentEnough (now : Int) : Option Int → Bool
  | none => false
  | some dt => ¬ dt < now - 7 * 86400

/-! ## Playlist data model

A playlist item as returned by the paginated `sp.playlist_tracks` call:
an optional track object (Spotify returns `null` tracks for removed local
files) carrying an optional id, a display name, the containing album's
name, the list of artist ids, and an optional uri; plus the insertion
timestamp `added_at` (optional, parsed to seconds). -/

/-- A track object as read from the playlist or from `sp.album_tracks`. -/
structure PTrack where
  id : Option String
  name : String
  album_name : String
  artists : List String
  uri : Option String
deriving DecidableEq, Repr

/-- One entry of the paginated playlist listing. -/
structure PlaylistItem where
  track : Option PTrack
  added_at : Option Int
deriving DecidableEq, Repr

/-- One execution of the remote operation. -/
inductive Attempt (α : Type) where
  | ok (v : α)
  | spotifyError (status : Option Int) (retryAfter : Option Int)
  | otherError
deriving DecidableEq, Repr

/-- How a `safe_spotify_call` invocation ends: a returned value, a
re-raised exception, or (an artifact of the finite trace model) the trace
running out while still rate-limited. -/
inductive CallOutcome (α : Type) where
  | returned (v : α)
  | raised
  | exhausted
deriving DecidableEq, Repr

/-- `safe_spotify_call` over a finite attempt trace: the list of sleeps it
performs and how it ends. -/
def safe_spotify_call {α : Type} : List (Attempt α) → List Int × CallOutcome α
  | [] => ([], .exhausted)
  | .ok v :: _ => ([], .returned v)
  | .spotifyError status retryAfter :: rest =>
    if status = some 429 then
      let out := safe_spotify_call rest
      (retryAfter.getD 5 :: out.1, out.2)
    else ([], .raised)
  | .otherError :: _ => ([], .raised)

/-- A rate-limit attempt (status 429) with the given `Retry-After`. -/
def rateLimited {α : Type} (retryAfter : Option Int) : Attempt α :=
  .spotifyError (some 429) retryAfter

/-! ## Affinity store: load and save

`update_artists_file` (lines 99-165) begins by loading `artists.json`
(lines 105-111): if the file exists it is parsed by `json.load` — which
*raises* on an unparsable file, uncaught by this code — and a parsed
object lacking the `"artists"` key is replaced by an empty mapping; a
missing file also yields the empty mapping.  At the end (lines 161-162)
the file is re-opened with mode `"w"` — truncating it in place — and the
new snapshot is written; no temporary file or rename is involved. -/

/-- A per-artist affinity record (`artists.json` values). -/
structure ArtistInfo where
  name : String
  liked_count : Int
  recent_artist_plays : Int
deriving DecidableEq, Repr

/-- The top-level object of `artists.json`: the artist mapping
(insertion-ordered, hence an association list). -/
structure ArtistsData where
  artists : List (String × ArtistInfo)
deriving DecidableEq, Repr

/-- What parsing the state file can yield: a JSON object that has the
`"artists"` key, or one that lacks it. -/
inductive ParsedState where
  | withArtists (d : ArtistsData)
  | withoutArtistsKey
deriving DecidableEq, Repr

/-- The on-disk situation of `artists.json` at load time. -/
inductive StateFile where
  | missing
  | unparsable
  | parsed (j : ParsedState)
deriving DecidableEq, Repr

/-- The load step of `update_artists_file` (lines 105-111): a missing file
or a parsed object without the `"artists"` key degrades to the empty
mapping; an unparsable file makes `json.load` raise, which nothing
catches, so the run aborts (`Except.error`). -/
def load_artists_data : StateFile → Except String ArtistsData
  | .missing => .ok ⟨[]⟩
  | .unparsable => .error "json.decoder.JSONDecodeError"
  | .parsed .withoutArtistsKey => .ok ⟨[]⟩
  | .parsed (.withArtists d) => .ok d

/-- A primitive file-system step, for modelling the save discipline. -/
inductive FsOp where
  | truncateTarget
  | writeTarget (c : String)
  | writeTemp (c : String)
  | renameTempToTarget
deriving DecidableEq, Repr

/-- File-system state: the state file's content and an optional temp file. -/
structure FsState where
  target : String
  temp : Option String
deriving DecidableEq, Repr

/-- Effect of one file-system step. -/
def applyFsOp (s : FsState) : FsOp → FsState
  | .truncateTarget => { s with target := "" }
  | .writeTarget c => { s with target := s.target ++ c }
  | .writeTemp c => { s with temp := some c }
  | .renameTempToTarget =>
    match s.temp with
    | some c => { target := c, temp := none }
    | none => s

/-- All states reachable by crashing after any prefix of the given step
sequence (including before the first and after the last step). -/
def statesAlong (s : FsState) : List FsOp → List FsState
  | [] => [s]
  | op :: ops => s :: statesAlong (applyFsOp s op) ops

/-- The save step of `update_artists_file` (lines 161-162):
`open(ARTISTS_FILE, "w")` truncates the file in place, then `json.dump`
writes the new snapshot into it. -/
def save_artists_ops (c : String) : List FsOp :=
  [.truncateTarget, .writeTarget c]

/-- Modelled from the spec: the write-then-replace discipline the spec
describes for `save()` — write the new snapshot to a separate location,
then atomically substitute it for the old one.  The source has no such
code; this definition exists to contrast the claimed discipline with
`save_artists_ops`. -/
def spec_save_ops (c : String) : List FsOp :=
  [.writeTemp c, .renameTempToTarget]

/-! ## Release detector

`check_new_releases` (lines 178-220): for each tracked artist with
`liked_count > 1`, scan their (bounded) album listing; keep albums with a
nonzero track count and a parsed release date inside the 7-day window;
classify by track count; and build a release candidate carrying the
artist's `liked_count`, the recency rank (`recent_scores.get(id, 0)`) and
the cached play count.  Finally sort descending by the sum of those three
(Python's `sorted` with `reverse=True` is stable, so the embedding uses a
stable descending insertion sort, which produces the identical list). -/

/-- A (simplified) album object from `sp.artist_albums`. -/
structure Album where
  name : String
  id : String
  total_tracks : Nat
  release_date : String
deriving DecidableEq, Repr

/-- The release classification of lines 195-200. -/
inductive RType where
  | single
  | ep
  | album
deriving DecidableEq, Repr

/-- A release candidate as appended at lines 201-211. -/
structure Release where
  name : String
  artist : String
  artist_id : String
  rtype : RType
  album_id : String
  liked_count : Int
  recent_score : Int
  recent_artist_plays : Int
  release_date : String
deriving DecidableEq, Repr

/-- The composite relevance score: the sort key of lines 212-216. -/
def relevance (r : Release) : Int :=
  r.liked_count + r.recent_score + r.recent_artist_plays

/-- `recent_scores.get(artist_id, 0)` over an association list. -/
def lookupDefault (l : List (String × Int)) (k : String) : Int :=
  match l.find? (fun p => p.1 = k) with
  | some p => p.2
  | none => 0

/-- Track-count classification (lines 195-200). -/
def classify (tc : Nat) : RType :=
  if tc ≤ 3 then .single else if tc ≤ 6 then .ep else .album

/-- The per-album body of the inner loop of `check_new_releases`
(lines 188-211): `none` when the album is filtered out. -/
def releaseOfAlbum (now : Int) (aid : String) (info : ArtistInfo)
    (scores : List (String × Int)) (alb : Album) : Option Release :=
  if alb.total_tracks = 0 then none
  else if recentEnough now (parse_release_date alb.release_date) then
    some { name := alb.name, artist := info.name, artist_id := aid,
           rtype := classify alb.total_tracks, album_id := alb.id,
           liked_count := info.liked_count,
           recent_score := lookupDefault scores aid,
           recent_artist_plays := info.recent_artist_plays,
           release_date := alb.release_date }
  else none

/-- The unsorted `releases` list of `check_new_releases` in discovery
order: artist iteration order (the insertion-ordered dict), then
per-artist album order.  `albumsOf` is the remote `sp.artist_albums`
listing. -/
def discoverReleases (now : Int) (artists : List (String × ArtistInfo))
    (scores : List (String × Int)) (albumsOf : String → List Album) :
    List Release :=
  artists.flatMap fun p =>
    if p.2.liked_count ≤ 1 then []
    else (albumsOf p.1).filterMap (releaseOfAlbum now p.1 p.2 scores)

/-- Insert `x` into a descending-sorted list, before the first element
whose key is `≤ k x` — so an element inserted earlier in the original
order lands before later elements with an equal key (stability). -/
def insertDescBy {α : Type} (k : α → Int) (x : α) : List α → List α
  | [] => [x]
  | y :: ys => if k y ≤ k x then x :: y :: ys else y :: insertDescBy k x ys

/-- Stable descending insertion sort by an integer key.  Python's `sorted`
with `reverse=True` is stable, and a stable descending sort is unique, so
this agrees with the script's `sorted(..., key=..., reverse=True)`. -/
def sortDescBy {α : Type} (k : α → Int) : List α → List α
  | [] => []
  | x :: xs => insertDescBy k x (sortDescBy k xs)

/-- `check_new_releases` (lines 178-220): the discovery list sorted
descending by `relevance`. -/
def check_new_releases (now : Int) (artists : List (String × ArtistInfo))
    (scores : List (String × Int)) (albumsOf : String → List Album) :
    List Release :=
  sortDescBy relevance (discoverReleases now artists scores albumsOf)

/-- Stable-descending order on index-tagged elements: strictly larger key
first, and original (discovery) index order on key ties. -/
def stableLex {α : Type} (k : α → Int) (a b : Nat × α) : Prop :=
  k b.2 < k a.2 ∨ (k a.2 = k b.2 ∧ a.1 < b.1)

/-! ## Notifier

`send_sms` (lines 397-440): a no-op when nothing was added; otherwise it
re-filters to `liked_count > 1`, ranks by the *tuple*
`(liked_count, recent_score + recent_artist_plays)` descending (Python
compares tuples lexicographically), formats the top five as message
lines, appends a `+ N more releases` line when more than five remain, and
appends the playlist link.  The digest structure below carries exactly
the data the message body is built from; the HTTP delivery is the
messaging collaborator's side and is not modelled. -/

/-- Python `<=` on int pairs (lexicographic). -/
def lexLe (a b : Int × Int) : Prop :=
  a.1 < b.1 ∨ (a.1 = b.1 ∧ a.2 ≤ b.2)

instance (a b : Int × Int) : Decidable (lexLe a b) := by
  unfold lexLe
  infer_instance

/-- Insert before the first element whose tuple key is `≤` the new
element's key (stable descending insertion, tuple keys). -/
def insertDescBy2 {α : Type} (k : α → Int × Int) (x : α) : List α → List α
  | [] => [x]
  | y :: ys => if lexLe (k y) (k x) then x :: y :: ys else y :: insertDescBy2 k x ys

/-- Stable descending insertion sort by a tuple key — the embedding of
`sorted(..., key=lambda r: (r[...], r[...]), reverse=True)`. -/
def sortDescBy2 {α : Type} (k : α → Int × Int) : List α → List α
  | [] => []
  | x :: xs => insertDescBy2 k x (sortDescBy2 k xs)

/-- The ranking key of `send_sms` (lines 408-415): primary `liked_count`,
secondary `recent_score + recent_artist_plays`. -/
def smsKey (r : Release) : Int × Int :=
  (r.liked_count, r.recent_score + r.recent_artist_plays)

/-- The data the SMS message body is built from. -/
structure Digest where
  lines : List Release
  more : Option Nat
  url : String
deriving DecidableEq, Repr

/-- `send_sms` (lines 397-440), as the digest it builds: `none` when the
added-release list is empty (no message is sent), otherwise the top five
of the ranked list, the count of the remainder when more than five, and
the playlist url. -/
def send_sms (new_releases : List Release) (playlist_url : String) :
    Option Digest :=
  if new_releases = [] then none
  else
    let filtered := new_releases.filter (fun r => 1 < r.liked_count)
    let ranked := sortDescBy2 smsKey filtered
    some { lines := ranked.take 5,
           more := if 5 < ranked.length then some (ranked.length - 5) else none,
           url := playlist_url }

/-! ## Playlist reconciler: the add phase

`add_new_releases_to_playlist` (lines 238-364).  The function first
paginates the playlist building three structures (lines 244-274): the set
of present track ids (`existing_track_ids`), the *first-seen* track id per
artist id (`artist_existing_track`), and, per artist id, the list of
normalized (album-name, track-id, track-name) records
(`artist_existing_releases`).  It then walks the ranked candidate list:
resolves the representative (first) track of the candidate's album,
skips on an exact id hit, skips on a normalized track-name match for the
same artist (regardless of album), otherwise removes a differing
first-seen track for that artist (all occurrences) and adds the
representative track, updating all three structures plus the notification
bookkeeping (`added_releases`, `notified_artists`).

Python dicts are insertion-ordered, hence association lists; Python sets
are used only through membership, insertion and discard, hence
duplicate-free lists. -/

/-- One record of `artist_existing_releases` (lines 267-271): normalized
album name, raw track id, normalized track name. -/
structure RelEntry where
  album_name : String
  track_id : Option String
  track_name : String
deriving DecidableEq, Repr

/-- The mutable state of `add_new_releases_to_playlist`. -/
structure RecState where
  existing_track_ids : List String
  artist_existing_track : List (String × String)
  artist_existing_releases : List (String × List RelEntry)
  added_releases : List Release
  notified_artists : List String
deriving DecidableEq, Repr

/-- Python `set.add`. -/
def setInsert (x : String) (l : List String) : List String :=
  if x ∈ l then l else l ++ [x]

/-- Python `set.discard` (the code guards with a membership test, which
makes no difference). -/
def setRemove (x : String) (l : List String) : List String :=
  l.filter (fun y => y ≠ x)

/-- Python `dict.get(k)` over an insertion-ordered association list. -/
def alGet {β : Type} : List (String × β) → String → Option β
  | [], _ => none
  | q :: qs, k => if q.1 = k then some q.2 else alGet qs k

/-- Python `d[k] = v`. -/
def alSet {β : Type} : List (String × β) → String → β → List (String × β)
  | [], k, v => [(k, v)]
  | q :: qs, k, v => if q.1 = k then (k, v) :: qs else q :: alSet qs k v

/-- Python `d.setdefault(k, []).append(e)` (what lines 265-271 and
356-362 do). -/
def alAppend : List (String × List RelEntry) → String → RelEntry →
    List (String × List RelEntry)
  | [], k, e => [(k, [e])]
  | q :: qs, k, e =>
    if q.1 = k then (q.1, q.2 ++ [e]) :: qs else q :: alAppend qs k e

/-- Lines 260-271: per artist id (with truthy id) of a playlist track,
record the first-seen track id and append the normalized release record. -/
def snapArtistStep (t : PTrack) (s : RecState) (aid : String) : RecState :=
  let s1 :=
    match t.id with
    | some tid =>
      if tid ≠ "" ∧ alGet s.artist_existing_track aid = none then
        { s with artist_existing_track := s.artist_existing_track ++ [(aid, tid)] }
      else s
    | none =>
      s
  { s1 with artist_existing_releases :=
      alAppend s1.artist_existing_releases aid ⟨pyNorm t.album_name, t.id, pyNorm t.name⟩ }

/-- Lines 252-254: record a truthy track id into the id set. -/
def snapIdStep (t : PTrack) (s : RecState) : RecState :=
  match t.id with
  | some tid =>
    if tid ≠ "" then
      { s with existing_track_ids := setInsert tid s.existing_track_ids }
    else s
  | none => s

/-- Lines 248-271: one playlist item of the snapshot pagination. -/
def snapItem (s : RecState) (it : PlaylistItem) : RecState :=
  match it.track with
  | none => s
  | some t =>
    (t.artists.filter (fun a => a ≠ "")).foldl (snapArtistStep t) (snapIdStep t s)

/-- The empty pre-snapshot state. -/
def initRecState : RecState := ⟨[], [], [], [], []⟩

/-- Lines 239-274: the full playlist snapshot. -/
def buildRecState (p : List PlaylistItem) : RecState :=
  p.foldl snapItem initRecState

/-- A playlist mutation issued by the add phase: a bulk
remove-all-occurrences of one track id, or an addition of one track. -/
inductive Mut where
  | removeTrack (tid : String)
  | addTrack (t : PTrack)
deriving DecidableEq, Repr

/-- Lines 281-290: resolve a candidate's representative track — the first
track of its album — skipping candidates with a falsy album id, an empty
track listing, or a falsy first-track id. -/
def resolveFirst (albumTracksOf : String → List PTrack) (r : Release) :
    Option (PTrack × String) :=
  if r.album_id = "" then none
  else
    match albumTracksOf r.album_id with
    | [] => none
    | ft :: _ =>
      match ft.id with
      | some i => if i = "" then none else some (ft, i)
      | none => none

/-- Lines 302-318: does the artist already have an entry with this
normalized track name (same-album and different-album matches both make
the candidate a duplicate)? -/
def hasDupName (s : RecState) (aid : String) (n : String) : Bool :=
  ((alGet s.artist_existing_releases aid).getD []).any (fun e => e.track_name = n)

/-- Lines 280-362: process one ranked candidate against the running
state, returning the new state and the playlist mutations issued. -/
def processOne (albumTracksOf : String → List PTrack) (s : RecState)
    (r : Release) : RecState × List Mut :=
  match resolveFirst albumTracksOf r with
  | none => (s, [])
  | some (ft, ftId) =>
    if ftId ∈ s.existing_track_ids then (s, [])
    else if hasDupName s r.artist_id (pyNorm ft.name) then (s, [])
    else
      let old? := alGet s.artist_existing_track r.artist_id
      let removal : RecState × List Mut :=
        match old? with
        | some old =>
          if old ≠ ftId then
            ({ s with existing_track_ids := setRemove old s.existing_track_ids },
             [.removeTrack old])
          else (s, [])
        | none => (s, [])
      let s1 := removal.1
      if ftId ∈ s1.existing_track_ids then (s1, removal.2)
      else
        ({ s1 with
            existing_track_ids := setInsert ftId s1.existing_track_ids,
            artist_existing_track := alSet s1.artist_existing_track r.artist_id ftId,
            artist_existing_releases := alAppend s1.artist_existing_releases
              r.artist_id ⟨pyNorm r.name, some ftId, pyNorm ft.name⟩,
            added_releases :=
              if old?.isNone ∨ r.artist_id ∉ s1.notified_artists then
                s1.added_releases ++ [r]
              else s1.added_releases,
            notified_artists :=
              if old?.isNone ∨ r.artist_id ∉ s1.notified_artists then
                setInsert r.artist_id s1.notified_artists
              else s1.notified_artists },
         removal.2 ++ [.addTrack ft])

/-- The candidate loop of lines 280-362. -/
def runAdds (albumTracksOf : String → List PTrack) (s : RecState) :
    List Release → RecState × List Mut
  | [] => (s, [])
  | r :: rs =>
    let step := processOne albumTracksOf s r
    let rest := runAdds albumTracksOf step.1 rs
    (rest.1, step.2 ++ rest.2)

/-- `add_new_releases_to_playlist(releases, playlist)`: snapshot the
playlist, then run the candidate loop.  The Python return value is the
`added_releases` field of the final state; the mutation list records the
playlist calls issued. -/
def add_new_releases (albumTracksOf : String → List PTrack)
    (p : List PlaylistItem) (rs : List Release) : RecState × List Mut :=
  runAdds albumTracksOf (buildRecState p) rs

/-- Effect of one mutation on the remote playlist:
`playlist_remove_all_occurrences_of_items` drops every item with that
track id; `playlist_add_items` appends the track (the playlist service
resolves the id to the track object; the embedding appends the resolved
track directly). -/
def applyMut (p : List PlaylistItem) : Mut → List PlaylistItem
  | .removeTrack tid => p.filter (fun it =>
      match it.track with
      | some t => t.id ≠ some tid
      | none => true)
  | .addTrack t => p ++ [⟨some t, none⟩]

/-- Apply a mutation list in order. -/
def applyMuts (p : List PlaylistItem) (ms : List Mut) : List PlaylistItem :=
  ms.foldl applyMut p

/-- Entry membership in the per-artist release records of a state. -/
def entryMem (s : RecState) (aid : String) (e : RelEntry) : Prop :=
  e ∈ (alGet s.artist_existing_releases aid).getD []

/-- The playlist items contributed by the additions of a mutation list. -/
def addsToItems (ms : List Mut) : List PlaylistItem :=
  ms.filterMap fun m =>
    match m with
    | .addTrack t => some ⟨some t, none⟩
    | .removeTrack _ => none

/-! # Theorems -/

/-- C10 (counterexample): a year-only release date in the *next* year
(future-dated) passes the 7-day recency filter even though the run does
not occur within 7 days after January 1 of that year — it occurs before
January 1. -/
theorem parse_release_date_year_only_counterexample :
    parse_release_date "2025" = some (dtSec 2025 1 1 0 0 0) ∧
    recentEnough (dtSec 2024 12 25 0 0 0) (parse_release_date "2025") = true ∧
    dtSec 2024 12 25 0 0 0 < dtSec 2025 1 1 0 0 0 := by
  refine ⟨by decide, ?_, by decide⟩
  decide

/-- C10 (amended): `parse_release_date` is total (its codomain is
`Option`), a 4-digit year-only date string parses to January 1 of that
year at midnight, and consequently such a release passes the 7-day
recency filter exactly when the run occurs *no later than* 7 days after
January 1 of that year — runs before January 1 (future-dated releases)
also qualify. -/
theorem parse_release_date_year_only_spec (s : String) (now : Int)
    (h4 : s.data.length = 4) (hd : isDigits s.data = true)
    (h1 : 1 ≤ natOfDigits s.data) :
    parse_release_date s = some (dtSec (natOfDigits s.data) 1 1 0 0 0) ∧
    (recentEnough now (parse_release_date s) = true ↔
      now ≤ dtSec (natOfDigits s.data) 1 1 0 0 0 + 7 * 86400) := by
  have hparse : parse_release_date s = some (dtSec (natOfDigits s.data) 1 1 0 0 0) := by
    unfold parse_release_date
    rw [if_pos h4, if_pos ⟨hd, h1⟩]
  refine ⟨hparse, ?_⟩
  rw [hparse]
  unfold recentEnough
  constructor
  · intro h
    have := of_decide_eq_true h
    omega
  · intro h
    apply decide_eq_true
    omega

/-- Unfolding step of the wrapper on a rate-limited attempt. -/
theorem safe_spotify_call_rateLimited_cons {α : Type} (ra : Option Int)
    (rest : List (Attempt α)) :
    safe_spotify_call (rateLimited ra :: rest) =
      (ra.getD 5 :: (safe_spotify_call rest).1, (safe_spotify_call rest).2) := by
  simp [safe_spotify_call, rateLimited]

/-- C7: after any number of rate-limited attempts (status 429) the wrapper
sleeps for each server-supplied retry-after duration (5 when absent) and
retries; it returns the value of the first successful attempt, and any
non-429 `SpotifyException` or other exception at the first
non-rate-limited attempt is re-raised immediately, untried further. -/
theorem safe_spotify_call_spec {α : Type} :
    (∀ (ras : List (Option Int)) (v : α) (rest : List (Attempt α)),
      safe_spotify_call (ras.map rateLimited ++ .ok v :: rest) =
        (ras.map (fun ra => ra.getD 5), .returned v)) ∧
    (∀ (ras : List (Option Int)) (status retryAfter : Option Int)
        (rest : List (Attempt α)), status ≠ some 429 →
      safe_spotify_call (ras.map rateLimited ++
          .spotifyError status retryAfter :: rest) =
        (ras.map (fun ra => ra.getD 5), .raised)) ∧
    (∀ (ras : List (Option Int)) (rest : List (Attempt α)),
      safe_spotify_call (ras.map rateLimited ++ .otherError :: rest) =
        (ras.map (fun ra => ra.getD 5), .raised)) := by
  refine ⟨?_, ?_, ?_⟩
  · intro ras v rest
    induction ras with
    | nil => rfl
    | cons ra ras ih => simp [safe_spotify_call_rateLimited_cons, ih]
  · intro ras status retryAfter rest hne
    induction ras with
    | nil => simp [safe_spotify_call, hne]
    | cons ra ras ih => simp [safe_spotify_call_rateLimited_cons, ih]
  · intro ras rest
    induction ras with
    | nil => rfl
    | cons ra ras ih => simp [safe_spotify_call_rateLimited_cons, ih]

/-- Witness for `safe_spotify_call_spec`: two rate-limits (retry-after 2,
then absent hence 5) followed by a success return the value with sleeps
`[2, 5]`; a 500 error raises at once with no sleeps. -/
theorem safe_spotify_call_spec_witness :
    safe_spotify_call ([some 2, none].map rateLimited ++ .ok (42 : Nat) :: []) =
      ([2, 5], .returned 42) ∧
    safe_spotify_call (([] : List (Option Int)).map rateLimited ++
        .spotifyError (some 500) none :: ([] : List (Attempt Nat))) =
      ([], .raised) :=
  ⟨safe_spotify_call_spec.1 [some 2, none] 42 [],
   safe_spotify_call_spec.2.1 [] (some 500) none [] (by decide)⟩

/-- C8 (counterexample): an unparsable (corrupt) state file makes
`json.load` raise, aborting the run rather than degrading to the empty
mapping — the claim that loading never aborts is false. -/
theorem load_artists_counterexample :
    load_artists_data .unparsable = .error "json.decoder.JSONDecodeError" := rfl

/-- C8 (amended): a missing state file, or a parsed one lacking the
`"artists"` key, degrades to the empty mapping and the run continues; a
well-formed file loads its mapping; but an *unparsable* file raises and
aborts the run. -/
theorem load_artists_spec :
    load_artists_data .missing = .ok ⟨[]⟩ ∧
    load_artists_data (.parsed .withoutArtistsKey) = .ok ⟨[]⟩ ∧
    (∀ d, load_artists_data (.parsed (.withArtists d)) = .ok d) ∧
    load_artists_data .unparsable = .error "json.decoder.JSONDecodeError" :=
  ⟨rfl, rfl, fun _ => rfl, rfl⟩

/-- C9 (counterexample): the code's save truncates the state file in
place; crashing between the truncation and the write leaves an empty
file — neither the previous snapshot nor the new one — so the claimed
write-then-replace discipline does not hold. -/
theorem save_crash_counterexample :
    (⟨"", none⟩ : FsState) ∈
      statesAlong ⟨"old-snapshot", none⟩ (save_artists_ops "new-snapshot") ∧
    ("" : String) ≠ "old-snapshot" ∧ ("" : String) ≠ "new-snapshot" := by
  refine ⟨?_, by decide, by decide⟩
  show _ ∈ [_, _, _]
  simp [statesAlong, applyFsOp, save_artists_ops]

/-- C9 (amended): saving opens the state file in write mode (truncating
it) and then writes the new snapshot, so the crash states are exactly
old, empty, new; the write-then-replace discipline described by the spec
(modelled by `spec_save_ops`) would instead leave the old or the new
snapshot at every crash point. -/
theorem save_overwrite_spec (old c : String) :
    statesAlong ⟨old, none⟩ (save_artists_ops c) =
      [⟨old, none⟩, ⟨"", none⟩, ⟨c, none⟩] ∧
    ∀ s ∈ statesAlong ⟨old, none⟩ (spec_save_ops c),
      s.target = old ∨ s.target = c := by
  constructor
  · simp [statesAlong, applyFsOp, save_artists_ops]
  · intro s hs
    simp only [spec_save_ops, statesAlong, applyFsOp, List.mem_cons,
      List.mem_singleton, List.not_mem_nil, or_false] at hs
    rcases hs with rfl | rfl | rfl
    · exact Or.inl rfl
    · exact Or.inl rfl
    · exact Or.inr rfl

/-- Witness for `save_overwrite_spec` at concrete contents. -/
theorem save_overwrite_spec_witness :
    statesAlong ⟨"a", none⟩ (save_artists_ops "b") =
      [⟨"a", none⟩, ⟨"", none⟩, ⟨"b", none⟩] ∧
    ((⟨"a", some "b"⟩ : FsState).target = "a" ∨
      (⟨"a", some "b"⟩ : FsState).target = "b") :=
  ⟨(save_overwrite_spec "a" "b").1,
   (save_overwrite_spec "a" "b").2 ⟨"a", some "b"⟩ (by decide)⟩

/-- Witness for `parse_release_date_year_only_spec` at `"2024"` and a run
on January 5, 2024. -/
theorem parse_release_date_year_only_spec_witness :
    parse_release_date "2024" = some (dtSec (natOfDigits "2024".data) 1 1 0 0 0) ∧
    (recentEnough (dtSec 2024 1 5 0 0 0) (parse_release_date "2024") = true ↔
      dtSec 2024 1 5 0 0 0 ≤ dtSec (natOfDigits "2024".data) 1 1 0 0 0 + 7 * 86400) :=
  parse_release_date_year_only_spec "2024" (dtSec 2024 1 5 0 0 0)
    (by decide) (by decide) (by decide)

/-- Membership in an insertion step. -/
theorem mem_insertDescBy {α : Type} (k : α → Int) (x a : α) (l : List α) :
    a ∈ insertDescBy k x l ↔ a = x ∨ a ∈ l := by
  induction l with
  | nil => simp [insertDescBy]
  | cons y ys ih =>
    simp only [insertDescBy]
    split
    · simp [List.mem_cons]
    · simp only [List.mem_cons, ih]
      tauto

/-- An insertion step is a permutation of consing. -/
theorem insertDescBy_perm {α : Type} (k : α → Int) (x : α) (l : List α) :
    (insertDescBy k x l).Perm (x :: l) := by
  induction l with
  | nil => simp [insertDescBy]
  | cons y ys ih =>
    simp only [insertDescBy]
    split
    · exact List.Perm.refl _
    · exact (List.Perm.cons y ih).trans (List.Perm.swap x y ys)

/-- The stable sort permutes its input. -/
theorem sortDescBy_perm {α : Type} (k : α → Int) (l : List α) :
    (sortDescBy k l).Perm l := by
  induction l with
  | nil => simp [sortDescBy]
  | cons x xs ih =>
    simp only [sortDescBy]
    exact (insertDescBy_perm k x _).trans (List.Perm.cons x ih)

/-- Insertion preserves descending sortedness. -/
theorem pairwise_insertDescBy {α : Type} (k : α → Int) (x : α) (l : List α)
    (h : l.Pairwise (fun a b => k b ≤ k a)) :
    (insertDescBy k x l).Pairwise (fun a b => k b ≤ k a) := by
  induction l with
  | nil => simp [insertDescBy]
  | cons y ys ih =>
    rcases List.pairwise_cons.mp h with ⟨hy, hys⟩
    simp only [insertDescBy]
    split
    · rename_i hk
      refine List.pairwise_cons.mpr ⟨?_, h⟩
      intro b hb
      rcases List.mem_cons.mp hb with rfl | hb
      · exact hk
      · exact le_trans (hy b hb) hk
    · rename_i hk
      refine List.pairwise_cons.mpr ⟨?_, ih hys⟩
      intro b hb
      rcases (mem_insertDescBy k x b ys).mp hb with rfl | hb
      · omega
      · exact hy b hb

/-- The stable sort is sorted descending by its key. -/
theorem sortDescBy_pairwise {α : Type} (k : α → Int) (l : List α) :
    (sortDescBy k l).Pairwise (fun a b => k b ≤ k a) := by
  induction l with
  | nil => simp [sortDescBy]
  | cons x xs ih =>
    simp only [sortDescBy]
    exact pairwise_insertDescBy k x _ ih

/-- Inserting an element whose tag is below every tag in the list
preserves the stable-descending order. -/
theorem pairwise_stableLex_insertDescBy {α : Type} (k : α → Int)
    (x : Nat × α) (l : List (Nat × α))
    (hidx : ∀ y ∈ l, x.1 < y.1) (h : l.Pairwise (stableLex k)) :
    (insertDescBy (fun p => k p.2) x l).Pairwise (stableLex k) := by
  induction l with
  | nil => simp [insertDescBy]
  | cons y ys ih =>
    rcases List.pairwise_cons.mp h with ⟨hy, hys⟩
    simp only [insertDescBy]
    split
    · rename_i hk
      refine List.pairwise_cons.mpr ⟨?_, h⟩
      intro b hb
      rcases List.mem_cons.mp hb with rfl | hb
      · rcases lt_or_eq_of_le hk with hlt | heq
        · exact Or.inl hlt
        · exact Or.inr ⟨heq.symm, hidx b (by simp)⟩
      · have hyb := hy b hb
        rcases hyb with hlt | ⟨heq, _⟩
        · exact Or.inl (lt_of_lt_of_le hlt hk)
        · rcases lt_or_eq_of_le hk with hlt2 | heq2
          · exact Or.inl (by omega)
          · exact Or.inr ⟨by omega, hidx b (List.mem_cons_of_mem y hb)⟩
    · rename_i hk
      refine List.pairwise_cons.mpr
        ⟨?_, ih (fun y' hy' => hidx y' (List.mem_cons_of_mem y hy')) hys⟩
      intro b hb
      rcases (mem_insertDescBy _ x b ys).mp hb with rfl | hb
      · exact Or.inl (by omega)
      · exact hy b hb

/-- Sorting an index-tagged list whose tags are strictly increasing gives
the stable-descending order: strictly larger keys first, ties in original
order. -/
theorem sortDescBy_stable {α : Type} (k : α → Int) (l : List (Nat × α))
    (h : l.Pairwise (fun a b => a.1 < b.1)) :
    (sortDescBy (fun p => k p.2) l).Pairwise (stableLex k) := by
  induction l with
  | nil => simp [sortDescBy]
  | cons x xs ih =>
    rcases List.pairwise_cons.mp h with ⟨hx, hxs⟩
    simp only [sortDescBy]
    apply pairwise_stableLex_insertDescBy
    · intro y hy
      exact hx y ((sortDescBy_perm _ xs).mem_iff.mp hy)
    · exact ih hxs

/-- Dropping the index tags commutes with insertion. -/
theorem map_snd_insertDescBy {α : Type} (k : α → Int) (x : Nat × α)
    (l : List (Nat × α)) :
    (insertDescBy (fun p => k p.2) x l).map Prod.snd =
      insertDescBy k x.2 (l.map Prod.snd) := by
  induction l with
  | nil => simp [insertDescBy]
  | cons y ys ih =>
    by_cases hk : k y.2 ≤ k x.2
    · simp [insertDescBy, hk]
    · simp [insertDescBy, hk, ih]

/-- Dropping the index tags commutes with the stable sort. -/
theorem map_snd_sortDescBy {α : Type} (k : α → Int) (l : List (Nat × α)) :
    (sortDescBy (fun p => k p.2) l).map Prod.snd =
      sortDescBy k (l.map Prod.snd) := by
  induction l with
  | nil => rfl
  | cons x xs ih => simp [sortDescBy, map_snd_insertDescBy, ih]

/-- Every tag in `enumFrom n l` is at least `n`. -/
theorem le_fst_of_mem_enumFrom {α : Type} {p : Nat × α} :
    ∀ {n : Nat} {l : List α}, p ∈ List.enumFrom n l → n ≤ p.1 := by
  intro n l
  induction l generalizing n with
  | nil => intro h; simp [List.enumFrom] at h
  | cons x xs ih =>
    intro h
    rcases List.mem_cons.mp h with rfl | h
    · exact Nat.le_refl _
    · exact Nat.le_of_succ_le (ih h)

/-- The tags of `enumFrom` are strictly increasing. -/
theorem pairwise_fst_lt_enumFrom {α : Type} :
    ∀ (n : Nat) (l : List α),
      (List.enumFrom n l).Pairwise (fun a b => a.1 < b.1) := by
  intro n l
  induction l generalizing n with
  | nil => simp [List.enumFrom]
  | cons x xs ih =>
    refine List.pairwise_cons.mpr ⟨?_, ih (n + 1)⟩
    intro b hb
    exact Nat.lt_of_succ_le (le_fst_of_mem_enumFrom hb)

/-- C1: `check_new_releases` returns a permutation of the discovery list
(artist iteration order, then per-artist album order) that is sorted
descending by `relevance` (= `liked_count + recent_score +
recent_artist_plays`), and — comparing against the index-tagged stable
sort — candidates with equal scores keep their original discovery order. -/
theorem check_new_releases_spec (now : Int)
    (artists : List (String × ArtistInfo)) (scores : List (String × Int))
    (albumsOf : String → List Album) :
    (check_new_releases now artists scores albumsOf).Perm
        (discoverReleases now artists scores albumsOf) ∧
    (check_new_releases now artists scores albumsOf).Pairwise
        (fun a b => relevance b ≤ relevance a) ∧
    ((sortDescBy (fun p => relevance p.2)
        (discoverReleases now artists scores albumsOf).enum).map Prod.snd =
      check_new_releases now artists scores albumsOf) ∧
    (sortDescBy (fun p => relevance p.2)
        (discoverReleases now artists scores albumsOf).enum).Pairwise
      (stableLex relevance) := by
  refine ⟨sortDescBy_perm relevance _, sortDescBy_pairwise relevance _, ?_, ?_⟩
  · rw [map_snd_sortDescBy]
    rw [show (discoverReleases now artists scores albumsOf).enum.map Prod.snd
          = discoverReleases now artists scores albumsOf from
        List.enumFrom_map_snd 0 _]
    rfl
  · exact sortDescBy_stable relevance _ (pairwise_fst_lt_enumFrom 0 _)

/-- Totality of the lexicographic tuple order. -/
theorem lexLe_total (a b : Int × Int) : lexLe a b ∨ lexLe b a := by
  unfold lexLe
  omega

/-- Transitivity of the lexicographic tuple order. -/
theorem lexLe_trans {a b c : Int × Int} (h1 : lexLe a b) (h2 : lexLe b c) :
    lexLe a c := by
  unfold lexLe at h1 h2 ⊢
  omega

/-- Membership in a tuple-key insertion step. -/
theorem mem_insertDescBy2 {α : Type} (k : α → Int × Int) (x a : α)
    (l : List α) : a ∈ insertDescBy2 k x l ↔ a = x ∨ a ∈ l := by
  induction l with
  | nil => simp [insertDescBy2]
  | cons y ys ih =>
    simp only [insertDescBy2]
    split
    · simp [List.mem_cons]
    · simp only [List.mem_cons, ih]
      tauto

/-- A tuple-key insertion step is a permutation of consing. -/
theorem insertDescBy2_perm {α : Type} (k : α → Int × Int) (x : α)
    (l : List α) : (insertDescBy2 k x l).Perm (x :: l) := by
  induction l with
  | nil => simp [insertDescBy2]
  | cons y ys ih =>
    simp only [insertDescBy2]
    split
    · exact List.Perm.refl _
    · exact (List.Perm.cons y ih).trans (List.Perm.swap x y ys)

/-- The tuple-key stable sort permutes its input. -/
theorem sortDescBy2_perm {α : Type} (k : α → Int × Int) (l : List α) :
    (sortDescBy2 k l).Perm l := by
  induction l with
  | nil => simp [sortDescBy2]
  | cons x xs ih =>
    simp only [sortDescBy2]
    exact (insertDescBy2_perm k x _).trans (List.Perm.cons x ih)

/-- Tuple-key insertion preserves descending sortedness. -/
theorem pairwise_insertDescBy2 {α : Type} (k : α → Int × Int) (x : α)
    (l : List α) (h : l.Pairwise (fun a b => lexLe (k b) (k a))) :
    (insertDescBy2 k x l).Pairwise (fun a b => lexLe (k b) (k a)) := by
  induction l with
  | nil => simp [insertDescBy2]
  | cons y ys ih =>
    rcases List.pairwise_cons.mp h with ⟨hy, hys⟩
    simp only [insertDescBy2]
    split
    · rename_i hk
      refine List.pairwise_cons.mpr ⟨?_, h⟩
      intro b hb
      rcases List.mem_cons.mp hb with rfl | hb
      · exact hk
      · exact lexLe_trans (hy b hb) hk
    · rename_i hk
      refine List.pairwise_cons.mpr ⟨?_, ih hys⟩
      intro b hb
      rcases (mem_insertDescBy2 k x b ys).mp hb with rfl | hb
      · rcases lexLe_total (k y) (k b) with h' | h'
        · exact absurd h' hk
        · exact h'
      · exact hy b hb

/-- The tuple-key stable sort is sorted descending. -/
theorem sortDescBy2_pairwise {α : Type} (k : α → Int × Int) (l : List α) :
    (sortDescBy2 k l).Pairwise (fun a b => lexLe (k b) (k a)) := by
  induction l with
  | nil => simp [sortDescBy2]
  | cons x xs ih =>
    simp only [sortDescBy2]
    exact pairwise_insertDescBy2 k x _ ih

/-- C4 (counterexample): two added releases where the digest's first line
has a strictly *smaller* relevance sum than its second — the code ranks
by `(liked_count, recent_score + recent_artist_plays)` lexicographically,
not by the relevance sum, so the claimed descending-by-sum order fails. -/
theorem send_sms_counterexample :
    send_sms
      [(⟨"R1", "A1", "a1", .single, "al1", 2, 10, 0, "d1"⟩ : Release),
       (⟨"R2", "A2", "a2", .single, "al2", 3, 0, 0, "d2"⟩ : Release)] "url" =
      some ⟨[⟨"R2", "A2", "a2", .single, "al2", 3, 0, 0, "d2"⟩,
             ⟨"R1", "A1", "a1", .single, "al1", 2, 10, 0, "d1"⟩], none, "url"⟩ ∧
    relevance ⟨"R2", "A2", "a2", .single, "al2", 3, 0, 0, "d2"⟩ <
      relevance ⟨"R1", "A1", "a1", .single, "al1", 2, 10, 0, "d1"⟩ := by
  exact ⟨by decide, by decide⟩

/-- C4 (amended): `send_sms` is a no-op exactly when nothing was added;
otherwise it re-filters to `liked_count > 1`, ranks descending by the
tuple `(liked_count, recent_score + recent_artist_plays)` (lexicographic,
not the relevance sum), lists the top five, reports the size of any
remainder beyond five, and carries the playlist link. -/
theorem send_sms_spec (rs : List Release) (url : String) (h : rs ≠ []) :
    send_sms [] url = none ∧
    send_sms rs url = some
      { lines := (sortDescBy2 smsKey
          (rs.filter (fun r => 1 < r.liked_count))).take 5,
        more := if 5 < (sortDescBy2 smsKey
            (rs.filter (fun r => 1 < r.liked_count))).length
          then some ((sortDescBy2 smsKey
            (rs.filter (fun r => 1 < r.liked_count))).length - 5)
          else none,
        url := url } ∧
    (sortDescBy2 smsKey (rs.filter (fun r => 1 < r.liked_count))).Pairwise
      (fun a b => lexLe (smsKey b) (smsKey a)) ∧
    (sortDescBy2 smsKey (rs.filter (fun r => 1 < r.liked_count))).Perm
      (rs.filter (fun r => 1 < r.liked_count)) := by
  refine ⟨rfl, ?_, sortDescBy2_pairwise _ _, sortDescBy2_perm _ _⟩
  simp [send_sms, h]

/-- Witness for `send_sms_spec` on a single added release. -/
theorem send_sms_spec_witness :
    send_sms [] "u" = none ∧
    send_sms [(⟨"R", "A", "a", .single, "al", 2, 0, 0, "d"⟩ : Release)] "u" =
      some
      { lines := (sortDescBy2 smsKey
          ([(⟨"R", "A", "a", .single, "al", 2, 0, 0, "d"⟩ : Release)].filter
            (fun r => 1 < r.liked_count))).take 5,
        more := if 5 < (sortDescBy2 smsKey
            ([(⟨"R", "A", "a", .single, "al", 2, 0, 0, "d"⟩ : Release)].filter
              (fun r => 1 < r.liked_count))).length
          then some ((sortDescBy2 smsKey
            ([(⟨"R", "A", "a", .single, "al", 2, 0, 0, "d"⟩ : Release)].filter
              (fun r => 1 < r.liked_count))).length - 5)
          else none,
        url := "u" } ∧
    (sortDescBy2 smsKey
        ([(⟨"R", "A", "a", .single, "al", 2, 0, 0, "d"⟩ : Release)].filter
          (fun r => 1 < r.liked_count))).Pairwise
      (fun a b => lexLe (smsKey b) (smsKey a)) ∧
    (sortDescBy2 smsKey
        ([(⟨"R", "A", "a", .single, "al", 2, 0, 0, "d"⟩ : Release)].filter
          (fun r => 1 < r.liked_count))).Perm
      ([(⟨"R", "A", "a", .single, "al", 2, 0, 0, "d"⟩ : Release)].filter
        (fun r => 1 < r.liked_count)) :=
  send_sms_spec [⟨"R", "A", "a", .single, "al", 2, 0, 0, "d"⟩] "u" (by decide)

/-- Membership after a set insertion. -/
theorem mem_setInsert (x y : String) (l : List String) :
    y ∈ setInsert x l ↔ y = x ∨ y ∈ l := by
  unfold setInsert
  split
  · rename_i h
    constructor
    · exact Or.inr
    · rintro (rfl | h')
      · exact h
      · exact h'
  · simp [List.mem_append]
    tauto

/-- Membership after a set removal. -/
theorem mem_setRemove (x y : String) (l : List String) :
    y ∈ setRemove x l ↔ y ∈ l ∧ y ≠ x := by
  unfold setRemove
  simp

/-- Reading back the key just set. -/
theorem alGet_alSet_self {β : Type} (l : List (String × β)) (k : String)
    (v : β) : alGet (alSet l k v) k = some v := by
  induction l with
  | nil => simp [alSet, alGet]
  | cons q qs ih =>
    by_cases h : q.1 = k
    · simp [alSet, alGet, h]
    · simp [alSet, alGet, h, ih]

/-- Reading another key after a set. -/
theorem alGet_alSet_ne {β : Type} (l : List (String × β)) (k a : String)
    (v : β) (h : a ≠ k) : alGet (alSet l k v) a = alGet l a := by
  induction l with
  | nil =>
    simp only [alSet, alGet]
    rw [if_neg (fun hh => h hh.symm)]
  | cons q qs ih =>
    by_cases hq : q.1 = k
    · subst hq
      simp only [alSet, if_pos rfl, alGet]
      rw [if_neg (fun hh => h hh.symm), if_neg (fun hh => h hh.symm)]
    · simp only [alSet, if_neg hq, alGet]
      by_cases hqa : q.1 = a
      · rw [if_pos hqa, if_pos hqa]
      · rw [if_neg hqa, if_neg hqa]
        exact ih

/-- Reading back the key just appended to. -/
theorem alGet_alAppend_self (l : List (String × List RelEntry))
    (k : String) (e : RelEntry) :
    alGet (alAppend l k e) k = some ((alGet l k).getD [] ++ [e]) := by
  induction l with
  | nil => simp [alAppend, alGet]
  | cons q qs ih =>
    by_cases h : q.1 = k
    · simp [alAppend, alGet, h]
    · simp [alAppend, alGet, h, ih]

/-- Reading another key after an append. -/
theorem alGet_alAppend_ne (l : List (String × List RelEntry))
    (k a : String) (e : RelEntry) (h : a ≠ k) :
    alGet (alAppend l k e) a = alGet l a := by
  induction l with
  | nil =>
    simp only [alAppend, alGet]
    rw [if_neg (fun hh => h hh.symm)]
  | cons q qs ih =>
    by_cases hq : q.1 = k
    · subst hq
      simp only [alAppend, if_pos rfl, alGet]
      rw [if_neg (fun hh => h hh.symm), if_neg (fun hh => h hh.symm)]
    · simp only [alAppend, if_neg hq, alGet]
      by_cases hqa : q.1 = a
      · rw [if_pos hqa, if_pos hqa]
      · rw [if_neg hqa, if_neg hqa]
        exact ih

/-- Entry membership through an append. -/
theorem entryMem_alAppend_iff (l : List (String × List RelEntry))
    (k a : String) (e' e : RelEntry) :
    e ∈ (alGet (alAppend l k e') a).getD [] ↔
      e ∈ (alGet l a).getD [] ∨ (a = k ∧ e = e') := by
  by_cases h : a = k
  · subst h
    rw [alGet_alAppend_self]
    simp
  · rw [alGet_alAppend_ne l k a e' h]
    simp [h]

/-- A key is absent iff `alGet` misses. -/
theorem alGet_eq_none_iff {β : Type} (l : List (String × β)) (a : String) :
    alGet l a = none ↔ a ∉ l.map Prod.fst := by
  induction l with
  | nil => simp [alGet]
  | cons q qs ih =>
    simp only [alGet, List.map_cons, List.mem_cons]
    by_cases h : q.1 = a
    · rw [if_pos h]
      constructor
      · intro hh
        exact absurd hh (by simp)
      · intro hh
        exact absurd (Or.inl h.symm) hh
    · rw [if_neg h, ih]
      constructor
      · intro hh hor
        rcases hor with h1 | h2
        · exact h h1.symm
        · exact hh h2
      · intro hh h2
        exact hh (Or.inr h2)

/-- Keys after a set: the old keys, plus possibly `k`. -/
theorem mem_keys_alSet {β : Type} (l : List (String × β)) (k a : String)
    (v : β) :
    a ∈ (alSet l k v).map Prod.fst ↔ a ∈ l.map Prod.fst ∨ a = k := by
  induction l with
  | nil => simp [alSet]
  | cons q qs ih =>
    by_cases h : q.1 = k
    · subst h
      simp [alSet]
      tauto
    · simp [alSet, h, ih]
      tauto

/-- A set keeps the keys duplicate-free. -/
theorem nodup_keys_alSet {β : Type} (l : List (String × β)) (k : String)
    (v : β) (h : (l.map Prod.fst).Nodup) :
    ((alSet l k v).map Prod.fst).Nodup := by
  induction l with
  | nil => simp [alSet]
  | cons q qs ih =>
    rcases List.nodup_cons.mp h with ⟨hq, hqs⟩
    by_cases hk : q.1 = k
    · subst hk
      simp only [alSet, if_pos rfl, List.map_cons]
      exact List.nodup_cons.mpr ⟨hq, hqs⟩
    · simp only [alSet, if_neg hk, List.map_cons]
      refine List.nodup_cons.mpr ⟨?_, ih hqs⟩
      intro hmem
      rcases (mem_keys_alSet qs k q.1 v).mp hmem with hmem' | hk'
      · exact hq hmem'
      · exact hk hk'

/-- Keys after an append: the old keys, plus possibly `k`. -/
theorem mem_keys_alAppend (l : List (String × List RelEntry))
    (k a : String) (e : RelEntry) :
    a ∈ (alAppend l k e).map Prod.fst ↔ a ∈ l.map Prod.fst ∨ a = k := by
  induction l with
  | nil => simp [alAppend]
  | cons q qs ih =>
    by_cases h : q.1 = k
    · subst h
      simp [alAppend]
      tauto
    · simp [alAppend, h, ih]
      tauto

/-- An append keeps the keys duplicate-free. -/
theorem nodup_keys_alAppend (l : List (String × List RelEntry))
    (k : String) (e : RelEntry) (h : (l.map Prod.fst).Nodup) :
    ((alAppend l k e).map Prod.fst).Nodup := by
  induction l with
  | nil => simp [alAppend]
  | cons q qs ih =>
    rcases List.nodup_cons.mp h with ⟨hq, hqs⟩
    by_cases hk : q.1 = k
    · simp only [alAppend, if_pos hk, List.map_cons]
      exact List.nodup_cons.mpr ⟨hq, hqs⟩
    · simp only [alAppend, if_neg hk, List.map_cons]
      refine List.nodup_cons.mpr ⟨?_, ih hqs⟩
      intro hmem
      rcases (mem_keys_alAppend qs k q.1 e).mp hmem with hmem' | hk'
      · exact hq hmem'
      · exact hk hk'

/-- The release entry a playlist track contributes to the snapshot. -/
theorem snapArtistStep_releases (t : PTrack) (s : RecState) (aid : String) :
    (snapArtistStep t s aid).artist_existing_releases =
      alAppend s.artist_existing_releases aid
        ⟨pyNorm t.album_name, t.id, pyNorm t.name⟩ := by
  unfold snapArtistStep
  rcases hti : t.id with _ | tid
  · rfl
  · dsimp only
    split
    · rfl
    · rfl

/-- `snapArtistStep` does not touch the track-id set. -/
theorem snapArtistStep_ids (t : PTrack) (s : RecState) (aid : String) :
    (snapArtistStep t s aid).existing_track_ids = s.existing_track_ids := by
  unfold snapArtistStep
  rcases hti : t.id with _ | tid
  · rfl
  · dsimp only
    split
    · rfl
    · rfl

/-- `snapArtistStep` keeps the first-seen-track keys duplicate-free. -/
theorem nodup_keys_snapArtistStep (t : PTrack) (s : RecState) (aid : String)
    (h : (s.artist_existing_track.map Prod.fst).Nodup) :
    ((snapArtistStep t s aid).artist_existing_track.map Prod.fst).Nodup := by
  unfold snapArtistStep
  rcases hti : t.id with _ | tid
  · exact h
  · dsimp only
    split
    · rename_i hc
      show (List.map Prod.fst (s.artist_existing_track ++ [(aid, tid)])).Nodup
      rw [List.map_append, List.nodup_append]
      refine ⟨h, List.nodup_singleton _, ?_⟩
      intro a ha hmem
      rcases List.mem_singleton.mp hmem with rfl
      exact (alGet_eq_none_iff s.artist_existing_track a).mp hc.2 ha
    · exact h

/-- Entry membership through `snapArtistStep`. -/
theorem entryMem_snapArtistStep_iff (t : PTrack) (s : RecState)
    (aid a : String) (e : RelEntry) :
    entryMem (snapArtistStep t s aid) a e ↔
      entryMem s a e ∨
        (a = aid ∧ e = ⟨pyNorm t.album_name, t.id, pyNorm t.name⟩) := by
  unfold entryMem
  rw [snapArtistStep_releases]
  exact entryMem_alAppend_iff _ _ _ _ _

/-- Entry membership through the per-item artist fold. -/
theorem entryMem_foldl_snapArtistStep_iff (t : PTrack) (a : String)
    (e : RelEntry) :
    ∀ (lst : List String) (s : RecState),
      entryMem (lst.foldl (snapArtistStep t) s) a e ↔
        entryMem s a e ∨
          (a ∈ lst ∧ e = ⟨pyNorm t.album_name, t.id, pyNorm t.name⟩) := by
  intro lst
  induction lst with
  | nil => simp
  | cons b bs ih =>
    intro s
    rw [List.foldl_cons, ih (snapArtistStep t s b), entryMem_snapArtistStep_iff]
    simp only [List.mem_cons]
    tauto

/-- The per-item artist fold does not touch the track-id set. -/
theorem foldl_snapArtistStep_ids (t : PTrack) :
    ∀ (lst : List String) (s : RecState),
      (lst.foldl (snapArtistStep t) s).existing_track_ids =
        s.existing_track_ids := by
  intro lst
  induction lst with
  | nil => intro s; rfl
  | cons b bs ih =>
    intro s
    rw [List.foldl_cons, ih (snapArtistStep t s b), snapArtistStep_ids]

/-- The per-item artist fold keeps the first-seen-track keys
duplicate-free. -/
theorem nodup_keys_foldl_snapArtistStep (t : PTrack) :
    ∀ (lst : List String) (s : RecState),
      (s.artist_existing_track.map Prod.fst).Nodup →
      ((lst.foldl (snapArtistStep t) s).artist_existing_track.map
        Prod.fst).Nodup := by
  intro lst
  induction lst with
  | nil => intro s h; exact h
  | cons b bs ih =>
    intro s h
    rw [List.foldl_cons]
    exact ih (snapArtistStep t s b) (nodup_keys_snapArtistStep t s b h)

/-- `snapIdStep` does not touch the release records. -/
theorem snapIdStep_releases (t : PTrack) (s : RecState) :
    (snapIdStep t s).artist_existing_releases = s.artist_existing_releases := by
  unfold snapIdStep
  rcases t.id with _ | tid
  · rfl
  · dsimp only
    split
    · rfl
    · rfl

/-- `snapIdStep` does not touch the first-seen-track map. -/
theorem snapIdStep_track (t : PTrack) (s : RecState) :
    (snapIdStep t s).artist_existing_track = s.artist_existing_track := by
  unfold snapIdStep
  rcases t.id with _ | tid
  · rfl
  · dsimp only
    split
    · rfl
    · rfl

/-- `snapIdStep` only grows the id set. -/
theorem snapIdStep_ids_mono (t : PTrack) (s : RecState) (x : String)
    (h : x ∈ s.existing_track_ids) : x ∈ (snapIdStep t s).existing_track_ids := by
  unfold snapIdStep
  rcases t.id with _ | tid
  · exact h
  · dsimp only
    split
    · exact (mem_setInsert tid x _).mpr (Or.inr h)
    · exact h

/-- `snapIdStep` records a truthy track id. -/
theorem snapIdStep_ids_new (t : PTrack) (s : RecState) (i : String)
    (hid : t.id = some i) (hne : i ≠ "") :
    i ∈ (snapIdStep t s).existing_track_ids := by
  unfold snapIdStep
  rw [hid]
  dsimp only
  rw [if_pos hne]
  exact (mem_setInsert i i _).mpr (Or.inl rfl)

/-- Entry membership through one snapshot item. -/
theorem entryMem_snapItem_iff (s : RecState) (it : PlaylistItem)
    (a : String) (e : RelEntry) :
    entryMem (snapItem s it) a e ↔
      entryMem s a e ∨
        (∃ t, it.track = some t ∧ a ∈ t.artists.filter (fun x => x ≠ "") ∧
          e = ⟨pyNorm t.album_name, t.id, pyNorm t.name⟩) := by
  rcases it with ⟨tr, aa⟩
  rcases tr with _ | t
  · simp [snapItem, entryMem]
  · show entryMem ((t.artists.filter _).foldl (snapArtistStep t) (snapIdStep t s)) a e ↔ _
    rw [entryMem_foldl_snapArtistStep_iff]
    have hrel : entryMem (snapIdStep t s) a e ↔ entryMem s a e := by
      unfold entryMem
      rw [snapIdStep_releases]
    rw [hrel]
    constructor
    · rintro (h | ⟨hmem, rfl⟩)
      · exact Or.inl h
      · exact Or.inr ⟨t, rfl, hmem, rfl⟩
    · rintro (h | ⟨t', ht', hmem, rfl⟩)
      · exact Or.inl h
      · obtain rfl := Option.some.inj ht'
        exact Or.inr ⟨hmem, rfl⟩

/-- The id set only grows along one snapshot item. -/
theorem snapItem_ids_mono (s : RecState) (it : PlaylistItem) (x : String)
    (h : x ∈ s.existing_track_ids) : x ∈ (snapItem s it).existing_track_ids := by
  rcases it with ⟨tr, aa⟩
  rcases tr with _ | t
  · exact h
  · show x ∈ ((t.artists.filter _).foldl (snapArtistStep t)
      (snapIdStep t s)).existing_track_ids
    rw [foldl_snapArtistStep_ids]
    exact snapIdStep_ids_mono t s x h

/-- A truthy track id of an item is recorded by its snapshot step. -/
theorem snapItem_ids_new (s : RecState) (it : PlaylistItem) (t : PTrack)
    (i : String) (htr : it.track = some t) (hid : t.id = some i)
    (hne : i ≠ "") : i ∈ (snapItem s it).existing_track_ids := by
  rcases it with ⟨tr, aa⟩
  obtain rfl := Option.some.inj (by simpa using htr)
  show i ∈ ((t.artists.filter _).foldl (snapArtistStep t)
    (snapIdStep t s)).existing_track_ids
  rw [foldl_snapArtistStep_ids]
  exact snapIdStep_ids_new t s i hid hne

/-- The first-seen-track keys stay duplicate-free along one snapshot
item. -/
theorem nodup_keys_snapItem (s : RecState) (it : PlaylistItem)
    (h : (s.artist_existing_track.map Prod.fst).Nodup) :
    ((snapItem s it).artist_existing_track.map Prod.fst).Nodup := by
  rcases it with ⟨tr, aa⟩
  rcases tr with _ | t
  · exact h
  · show (((t.artists.filter _).foldl (snapArtistStep t)
      (snapIdStep t s)).artist_existing_track.map Prod.fst).Nodup
    apply nodup_keys_foldl_snapArtistStep
    rw [snapIdStep_track]
    exact h

/-- Entry membership survives folding further items. -/
theorem entryMem_foldl_snapItem_mono (a : String) (e : RelEntry) :
    ∀ (p : List PlaylistItem) (s : RecState), entryMem s a e →
      entryMem (p.foldl snapItem s) a e := by
  intro p
  induction p with
  | nil => intro s h; exact h
  | cons it ps ih =>
    intro s h
    rw [List.foldl_cons]
    exact ih _ ((entryMem_snapItem_iff s it a e).mpr (Or.inl h))

/-- Id-set membership survives folding further items. -/
theorem ids_foldl_snapItem_mono (x : String) :
    ∀ (p : List PlaylistItem) (s : RecState), x ∈ s.existing_track_ids →
      x ∈ (p.foldl snapItem s).existing_track_ids := by
  intro p
  induction p with
  | nil => intro s h; exact h
  | cons it ps ih =>
    intro s h
    rw [List.foldl_cons]
    exact ih _ (snapItem_ids_mono s it x h)

/-- Any item with a truthy track id contributes that id to the snapshot's
id set. -/
theorem ids_foldl_snapItem_of_item (it : PlaylistItem) (t : PTrack)
    (i : String) (htr : it.track = some t) (hid : t.id = some i)
    (hne : i ≠ "") :
    ∀ (p : List PlaylistItem) (s : RecState), it ∈ p →
      i ∈ (p.foldl snapItem s).existing_track_ids := by
  intro p
  induction p with
  | nil => intro s h; exact absurd h (List.not_mem_nil it)
  | cons it' ps ih =>
    intro s hmem
    rw [List.foldl_cons]
    rcases List.mem_cons.mp hmem with rfl | hmem'
    · exact ids_foldl_snapItem_mono i ps _ (snapItem_ids_new s it t i htr hid hne)
    · exact ih _ hmem'

/-- Any item whose track lists artist `a` (with a truthy artist id)
contributes its normalized release record to the snapshot under `a`. -/
theorem entryMem_foldl_snapItem_of_item (it : PlaylistItem) (t : PTrack)
    (a : String) (htr : it.track = some t)
    (ha : a ∈ t.artists.filter (fun x => x ≠ "")) :
    ∀ (p : List PlaylistItem) (s : RecState), it ∈ p →
      entryMem (p.foldl snapItem s) a
        ⟨pyNorm t.album_name, t.id, pyNorm t.name⟩ := by
  intro p
  induction p with
  | nil => intro s h; exact absurd h (List.not_mem_nil it)
  | cons it' ps ih =>
    intro s hmem
    rw [List.foldl_cons]
    rcases List.mem_cons.mp hmem with rfl | hmem'
    · exact entryMem_foldl_snapItem_mono a _ ps _
        ((entryMem_snapItem_iff s it a _).mpr (Or.inr ⟨t, htr, ha, rfl⟩))
    · exact ih _ hmem'

/-- The first-seen-track keys of the snapshot fold are duplicate-free. -/
theorem nodup_keys_foldl_snapItem :
    ∀ (p : List PlaylistItem) (s : RecState),
      (s.artist_existing_track.map Prod.fst).Nodup →
      ((p.foldl snapItem s).artist_existing_track.map Prod.fst).Nodup := by
  intro p
  induction p with
  | nil => intro s h; exact h
  | cons it ps ih =>
    intro s h
    rw [List.foldl_cons]
    exact ih _ (nodup_keys_snapItem s it h)

/-- The snapshot's first-seen-track map has duplicate-free keys. -/
theorem nodup_keys_buildRecState (p : List PlaylistItem) :
    ((buildRecState p).artist_existing_track.map Prod.fst).Nodup := by
  unfold buildRecState
  exact nodup_keys_foldl_snapItem p initRecState (by simp [initRecState])

/-- Skip when the candidate has no resolvable representative track. -/
theorem processOne_skip_none (env : String → List PTrack) (s : RecState)
    (r : Release) (h : resolveFirst env r = none) :
    processOne env s r = (s, []) := by
  unfold processOne
  rw [h]

/-- Exact-track skip (line 293). -/
theorem processOne_skip_exact (env : String → List PTrack) (s : RecState)
    (r : Release) (ft : PTrack) (ftId : String)
    (hres : resolveFirst env r = some (ft, ftId))
    (hmem : ftId ∈ s.existing_track_ids) :
    processOne env s r = (s, []) := by
  unfold processOne
  rw [hres]
  dsimp only
  rw [if_pos hmem]

/-- Semantic-duplicate skip (lines 302-321). -/
theorem processOne_skip_dup (env : String → List PTrack) (s : RecState)
    (r : Release) (ft : PTrack) (ftId : String)
    (hres : resolveFirst env r = some (ft, ftId))
    (hnot : ftId ∉ s.existing_track_ids)
    (hdup : hasDupName s r.artist_id (pyNorm ft.name) = true) :
    processOne env s r = (s, []) := by
  unfold processOne
  rw [hres]
  dsimp only
  rw [if_neg hnot, if_pos hdup]

/-- The supersede branch (lines 323-362): the step's effect on every
field the claims inspect. -/
theorem processOne_supersede (env : String → List PTrack) (s : RecState)
    (r : Release) (ft : PTrack) (ftId old : String)
    (hres : resolveFirst env r = some (ft, ftId))
    (hnot : ftId ∉ s.existing_track_ids)
    (hdup : hasDupName s r.artist_id (pyNorm ft.name) = false)
    (hold : alGet s.artist_existing_track r.artist_id = some old)
    (hne : old ≠ ftId) :
    (processOne env s r).2 = [Mut.removeTrack old, Mut.addTrack ft] ∧
    (processOne env s r).1.existing_track_ids =
      setInsert ftId (setRemove old s.existing_track_ids) ∧
    (processOne env s r).1.artist_existing_track =
      alSet s.artist_existing_track r.artist_id ftId ∧
    (processOne env s r).1.artist_existing_releases =
      alAppend s.artist_existing_releases r.artist_id
        ⟨pyNorm r.name, some ftId, pyNorm ft.name⟩ := by
  unfold processOne
  rw [hres]
  dsimp only
  rw [if_neg hnot, if_neg (by simp [hdup]), hold]
  dsimp only
  rw [if_pos hne]
  dsimp only
  rw [if_neg (fun hc => hnot ((mem_setRemove old ftId _).mp hc).1)]
  exact ⟨rfl, rfl, rfl, rfl⟩

/-- The plain-add branch: the artist has no first-seen track, or its
first-seen track is the candidate's own representative track. -/
theorem processOne_plain_add (env : String → List PTrack) (s : RecState)
    (r : Release) (ft : PTrack) (ftId : String)
    (hres : resolveFirst env r = some (ft, ftId))
    (hnot : ftId ∉ s.existing_track_ids)
    (hdup : hasDupName s r.artist_id (pyNorm ft.name) = false)
    (hold : alGet s.artist_existing_track r.artist_id = none ∨
      alGet s.artist_existing_track r.artist_id = some ftId) :
    (processOne env s r).2 = [Mut.addTrack ft] ∧
    (processOne env s r).1.existing_track_ids =
      setInsert ftId s.existing_track_ids ∧
    (processOne env s r).1.artist_existing_track =
      alSet s.artist_existing_track r.artist_id ftId ∧
    (processOne env s r).1.artist_existing_releases =
      alAppend s.artist_existing_releases r.artist_id
        ⟨pyNorm r.name, some ftId, pyNorm ft.name⟩ := by
  unfold processOne
  rw [hres]
  dsimp only
  rw [if_neg hnot, if_neg (by simp [hdup])]
  rcases hold with hold | hold
  · rw [hold]
    dsimp only
    rw [if_neg hnot]
    exact ⟨rfl, rfl, rfl, rfl⟩
  · rw [hold]
    dsimp only
    rw [if_neg (fun h : ftId ≠ ftId => h rfl)]
    dsimp only
    rw [if_neg hnot]
    exact ⟨rfl, rfl, rfl, rfl⟩

/-- Exhaustive case analysis of one candidate step: either a no-op skip
(with its reason), or a step that issues a removal, or a pure addition. -/
theorem processOne_cases (env : String → List PTrack) (s : RecState)
    (r : Release) :
    (processOne env s r = (s, []) ∧
      (resolveFirst env r = none ∨
        (∃ ft ftId, resolveFirst env r = some (ft, ftId) ∧
          ftId ∈ s.existing_track_ids) ∨
        (∃ ft ftId, resolveFirst env r = some (ft, ftId) ∧
          hasDupName s r.artist_id (pyNorm ft.name) = true))) ∨
    (∃ old, Mut.removeTrack old ∈ (processOne env s r).2) ∨
    (∃ ft ftId, resolveFirst env r = some (ft, ftId) ∧
      ftId ∉ s.existing_track_ids ∧
      hasDupName s r.artist_id (pyNorm ft.name) = false ∧
      (processOne env s r).2 = [Mut.addTrack ft] ∧
      (processOne env s r).1.existing_track_ids =
        setInsert ftId s.existing_track_ids ∧
      (processOne env s r).1.artist_existing_releases =
        alAppend s.artist_existing_releases r.artist_id
          ⟨pyNorm r.name, some ftId, pyNorm ft.name⟩) := by
  rcases hres : resolveFirst env r with _ | ⟨ft, ftId⟩
  · exact Or.inl ⟨processOne_skip_none env s r hres, Or.inl rfl⟩
  · by_cases hmem : ftId ∈ s.existing_track_ids
    · exact Or.inl ⟨processOne_skip_exact env s r ft ftId hres hmem,
        Or.inr (Or.inl ⟨ft, ftId, rfl, hmem⟩)⟩
    · cases hdup : hasDupName s r.artist_id (pyNorm ft.name) with
      | true =>
        exact Or.inl ⟨processOne_skip_dup env s r ft ftId hres hmem hdup,
          Or.inr (Or.inr ⟨ft, ftId, rfl, hdup⟩)⟩
      | false =>
        rcases holdc : alGet s.artist_existing_track r.artist_id with _ | old
        · obtain ⟨h2, h3, _, h5⟩ :=
            processOne_plain_add env s r ft ftId hres hmem hdup (Or.inl holdc)
          exact Or.inr (Or.inr ⟨ft, ftId, rfl, hmem, hdup, h2, h3, h5⟩)
        · by_cases heq : old = ftId
          · subst heq
            obtain ⟨h2, h3, _, h5⟩ :=
              processOne_plain_add env s r ft old hres hmem hdup (Or.inr holdc)
            exact Or.inr (Or.inr ⟨ft, old, rfl, hmem, hdup, h2, h3, h5⟩)
          · obtain ⟨h2, _, _, _⟩ :=
              processOne_supersede env s r ft ftId old hres hmem hdup holdc heq
            refine Or.inr (Or.inl ⟨old, ?_⟩)
            rw [h2]
            exact List.mem_cons_self _ _

/-- One candidate step keeps the first-seen-track keys duplicate-free. -/
theorem nodup_keys_processOne (env : String → List PTrack) (s : RecState)
    (r : Release) (h : (s.artist_existing_track.map Prod.fst).Nodup) :
    ((processOne env s r).1.artist_existing_track.map Prod.fst).Nodup := by
  rcases hres : resolveFirst env r with _ | ⟨ft, ftId⟩
  · rw [processOne_skip_none env s r hres]
    exact h
  · by_cases hmem : ftId ∈ s.existing_track_ids
    · rw [processOne_skip_exact env s r ft ftId hres hmem]
      exact h
    · cases hdup : hasDupName s r.artist_id (pyNorm ft.name) with
      | true =>
        rw [processOne_skip_dup env s r ft ftId hres hmem hdup]
        exact h
      | false =>
        rcases holdc : alGet s.artist_existing_track r.artist_id with _ | old
        · rw [(processOne_plain_add env s r ft ftId hres hmem hdup
            (Or.inl holdc)).2.2.1]
          exact nodup_keys_alSet _ _ _ h
        · by_cases heq : old = ftId
          · subst heq
            rw [(processOne_plain_add env s r ft old hres hmem hdup
              (Or.inr holdc)).2.2.1]
            exact nodup_keys_alSet _ _ _ h
          · rw [(processOne_supersede env s r ft ftId old hres hmem hdup
              holdc heq).2.2.1]
            exact nodup_keys_alSet _ _ _ h

/-- The candidate loop keeps the first-seen-track keys duplicate-free. -/
theorem nodup_keys_runAdds (env : String → List PTrack) :
    ∀ (rs : List Release) (s : RecState),
      (s.artist_existing_track.map Prod.fst).Nodup →
      ((runAdds env s rs).1.artist_existing_track.map Prod.fst).Nodup := by
  intro rs
  induction rs with
  | nil => intro s h; exact h
  | cons r rs ih =>
    intro s h
    exact ih _ (nodup_keys_processOne env s r h)

/-- C2: if the candidate's artist already has a playlist entry whose
normalized (lower-cased, trimmed) track name equals the normalized name
of the candidate's representative track, the step changes nothing and
issues no playlist mutation, regardless of album names.  Candidates
differing only by case or surrounding whitespace normalize identically,
so they are treated as the same work. -/
theorem semantic_duplicate_skip (env : String → List PTrack)
    (p : List PlaylistItem) (r : Release) (it : PlaylistItem)
    (t ft : PTrack) (ftId : String)
    (hit : it ∈ p) (htr : it.track = some t)
    (hart : r.artist_id ∈ t.artists) (hane : r.artist_id ≠ "")
    (hres : resolveFirst env r = some (ft, ftId))
    (hname : pyNorm t.name = pyNorm ft.name) :
    processOne env (buildRecState p) r = (buildRecState p, []) := by
  by_cases hmem : ftId ∈ (buildRecState p).existing_track_ids
  · exact processOne_skip_exact env _ r ft ftId hres hmem
  · apply processOne_skip_dup env _ r ft ftId hres hmem
    have hent : entryMem (buildRecState p) r.artist_id
        ⟨pyNorm t.album_name, t.id, pyNorm t.name⟩ :=
      entryMem_foldl_snapItem_of_item it t r.artist_id htr
        (List.mem_filter.mpr ⟨hart, by simpa using hane⟩) p initRecState hit
    unfold hasDupName
    rw [List.any_eq_true]
    exact ⟨_, hent, by simpa using hname⟩

/-- Witness for `semantic_duplicate_skip`: the existing entry is
`"Song Title "` on `"Old Album"`, the candidate's representative track is
`"song title"` on `"New Album"` — same normalized name, different case
and whitespace, different album — and the step is a pure skip. -/
theorem semantic_duplicate_skip_witness :
    processOne
      (fun aid => if aid = "x"
        then [⟨some "t9", "song title", "New Album", ["A"], none⟩] else [])
      (buildRecState
        [⟨some ⟨some "e1", "Song Title ", "Old Album", ["A"], none⟩, none⟩])
      ⟨"New Album", "Artist", "A", .single, "x", 5, 0, 0, "d"⟩ =
    (buildRecState
      [⟨some ⟨some "e1", "Song Title ", "Old Album", ["A"], none⟩, none⟩],
     []) :=
  semantic_duplicate_skip
    (fun aid => if aid = "x"
      then [⟨some "t9", "song title", "New Album", ["A"], none⟩] else [])
    [⟨some ⟨some "e1", "Song Title ", "Old Album", ["A"], none⟩, none⟩]
    ⟨"New Album", "Artist", "A", .single, "x", 5, 0, 0, "d"⟩
    ⟨some ⟨some "e1", "Song Title ", "Old Album", ["A"], none⟩, none⟩
    ⟨some "e1", "Song Title ", "Old Album", ["A"], none⟩
    ⟨some "t9", "song title", "New Album", ["A"], none⟩
    "t9" (by decide) (by decide) (by decide) (by decide) (by decide)
    (by decide)

/-- C3: when a candidate supersedes an artist's differing first-seen
track, the step issues exactly one removal (of that old track, which the
remote call strips of all occurrences) and exactly one addition (of the
new representative track); afterwards the artist maps to the new track,
which is in the id set while the old one is not; and the first-seen-track
map of the completed add phase never holds two entries for one artist. -/
theorem supersede_replaces_exactly_one (env : String → List PTrack)
    (s : RecState) (r : Release) (ft : PTrack) (ftId old : String)
    (hres : resolveFirst env r = some (ft, ftId))
    (hnot : ftId ∉ s.existing_track_ids)
    (hdup : hasDupName s r.artist_id (pyNorm ft.name) = false)
    (hold : alGet s.artist_existing_track r.artist_id = some old)
    (hne : old ≠ ftId) :
    (processOne env s r).2 = [Mut.removeTrack old, Mut.addTrack ft] ∧
    alGet (processOne env s r).1.artist_existing_track r.artist_id =
      some ftId ∧
    ftId ∈ (processOne env s r).1.existing_track_ids ∧
    old ∉ (processOne env s r).1.existing_track_ids ∧
    (∀ (p : List PlaylistItem) (rs : List Release),
      ((add_new_releases env p rs).1.artist_existing_track.map
        Prod.fst).Nodup) := by
  obtain ⟨h2, hids, htrk, _⟩ :=
    processOne_supersede env s r ft ftId old hres hnot hdup hold hne
  refine ⟨h2, ?_, ?_, ?_, ?_⟩
  · rw [htrk]
    exact alGet_alSet_self _ _ _
  · rw [hids]
    exact (mem_setInsert _ _ _).mpr (Or.inl rfl)
  · rw [hids]
    intro hc
    rcases (mem_setInsert _ _ _).mp hc with h' | h'
    · exact hne h'
    · exact ((mem_setRemove _ _ _).mp h').2 rfl
  · intro p rs
    exact nodup_keys_runAdds env rs (buildRecState p)
      (nodup_keys_buildRecState p)

/-- Witness for `supersede_replaces_exactly_one`: artist `"A"` has the
old representative track `"e"`; the candidate's representative track is
`"t1"`, a different track with a different name, so the step removes
`"e"` and adds `"t1"`. -/
theorem supersede_replaces_exactly_one_witness :
    (processOne
      (fun aid => if aid = "x"
        then [⟨some "t1", "New", "NewAlb", ["A"], none⟩] else [])
      (buildRecState [⟨some ⟨some "e", "Old", "OldAlb", ["A"], none⟩, none⟩])
      ⟨"NewAlb", "Art", "A", .single, "x", 5, 0, 0, "d"⟩).2 =
      [Mut.removeTrack "e", Mut.addTrack ⟨some "t1", "New", "NewAlb", ["A"], none⟩] ∧
    alGet (processOne
      (fun aid => if aid = "x"
        then [⟨some "t1", "New", "NewAlb", ["A"], none⟩] else [])
      (buildRecState [⟨some ⟨some "e", "Old", "OldAlb", ["A"], none⟩, none⟩])
      ⟨"NewAlb", "Art", "A", .single, "x", 5, 0, 0, "d"⟩).1.artist_existing_track
      "A" = some "t1" ∧
    "t1" ∈ (processOne
      (fun aid => if aid = "x"
        then [⟨some "t1", "New", "NewAlb", ["A"], none⟩] else [])
      (buildRecState [⟨some ⟨some "e", "Old", "OldAlb", ["A"], none⟩, none⟩])
      ⟨"NewAlb", "Art", "A", .single, "x", 5, 0, 0, "d"⟩).1.existing_track_ids ∧
    "e" ∉ (processOne
      (fun aid => if aid = "x"
        then [⟨some "t1", "New", "NewAlb", ["A"], none⟩] else [])
      (buildRecState [⟨some ⟨some "e", "Old", "OldAlb", ["A"], none⟩, none⟩])
      ⟨"NewAlb", "Art", "A", .single, "x", 5, 0, 0, "d"⟩).1.existing_track_ids ∧
    (∀ (p : List PlaylistItem) (rs : List Release),
      ((add_new_releases
        (fun aid => if aid = "x"
          then [⟨some "t1", "New", "NewAlb", ["A"], none⟩] else [])
        p rs).1.artist_existing_track.map Prod.fst).Nodup) :=
  supersede_replaces_exactly_one
    (fun aid => if aid = "x"
      then [⟨some "t1", "New", "NewAlb", ["A"], none⟩] else [])
    (buildRecState [⟨some ⟨some "e", "Old", "OldAlb", ["A"], none⟩, none⟩])
    ⟨"NewAlb", "Art", "A", .single, "x", 5, 0, 0, "d"⟩
    ⟨some "t1", "New", "NewAlb", ["A"], none⟩ "t1" "e"
    (by decide) (by decide) (by decide) (by decide) (by decide)

/-- C6 (counterexample): re-running the add phase on the same ranked list
is *not* idempotent.  The playlist holds an entry `"Song"` by artist
`"A"`; candidate 1's representative track has the same name (skipped as a
semantic duplicate), candidate 2 supersedes the entry.  The second run no
longer sees the `"Song"` entry, so candidate 1 now supersedes candidate
2's track: the second run issues one removal and one addition. -/
theorem add_phase_not_idempotent_counterexample :
    (add_new_releases
      (fun aid => if aid = "x"
        then [⟨some "t1", "Song", "AlbumX", ["A"], none⟩]
        else if aid = "y"
        then [⟨some "t2", "Other", "AlbumY", ["A"], none⟩]
        else [])
      (applyMuts [⟨some ⟨some "e", "Song", "OldAlb", ["A"], none⟩, none⟩]
        (add_new_releases
          (fun aid => if aid = "x"
            then [⟨some "t1", "Song", "AlbumX", ["A"], none⟩]
            else if aid = "y"
            then [⟨some "t2", "Other", "AlbumY", ["A"], none⟩]
            else [])
          [⟨some ⟨some "e", "Song", "OldAlb", ["A"], none⟩, none⟩]
          [⟨"AlbumX", "Art", "A", .single, "x", 5, 0, 0, "d"⟩,
           ⟨"AlbumY", "Art", "A", .single, "y", 5, 0, 0, "d"⟩]).2)
      [⟨"AlbumX", "Art", "A", .single, "x", 5, 0, 0, "d"⟩,
       ⟨"AlbumY", "Art", "A", .single, "y", 5, 0, 0, "d"⟩]).2 =
    [Mut.removeTrack "t2",
     Mut.addTrack ⟨some "t1", "Song", "AlbumX", ["A"], none⟩] := by
  decide

/-- Applying a removal-free mutation list appends the added items. -/
theorem applyMuts_of_all_adds :
    ∀ (ms : List Mut) (p : List PlaylistItem),
      (∀ m ∈ ms, ∃ t, m = Mut.addTrack t) →
      applyMuts p ms = p ++ addsToItems ms := by
  intro ms
  induction ms with
  | nil => intro p _; simp [applyMuts, addsToItems]
  | cons m ms ih =>
    intro p h
    obtain ⟨t, rfl⟩ := h m (List.mem_cons_self m ms)
    show applyMuts (p ++ [⟨some t, none⟩]) ms = p ++ addsToItems (Mut.addTrack t :: ms)
    rw [ih _ (fun m' hm' => h m' (List.mem_cons_of_mem _ hm'))]
    show p ++ [⟨some t, none⟩] ++ addsToItems ms = _
    rw [List.append_assoc]
    rfl

/-- A resolved representative track carries the resolved (truthy) id. -/
theorem resolveFirst_id (env : String → List PTrack) (r : Release)
    (ft : PTrack) (ftId : String)
    (h : resolveFirst env r = some (ft, ftId)) :
    ft.id = some ftId ∧ ftId ≠ "" := by
  unfold resolveFirst at h
  by_cases ha : r.album_id = ""
  · rw [if_pos ha] at h
    exact absurd h (by simp)
  · rw [if_neg ha] at h
    rcases henv : env r.album_id with _ | ⟨ft', rest'⟩
    · rw [henv] at h
      exact absurd h (by simp)
    · rw [henv] at h
      dsimp only at h
      rcases hid : ft'.id with _ | i
      · rw [hid] at h
        exact absurd h (by simp)
      · rw [hid] at h
        dsimp only at h
        by_cases hi : i = ""
        · rw [if_pos hi] at h
          exact absurd h (by simp)
        · rw [if_neg hi] at h
          have h' := Option.some.inj h
          rw [Prod.mk.injEq] at h'
          obtain ⟨rfl, rfl⟩ := h'
          exact ⟨hid, hi⟩

/-- The snapshot id set only grows when the playlist grows at the end. -/
theorem ids_buildRecState_mono (p q : List PlaylistItem) (x : String)
    (h : x ∈ (buildRecState p).existing_track_ids) :
    x ∈ (buildRecState (p ++ q)).existing_track_ids := by
  unfold buildRecState at h ⊢
  rw [List.foldl_append]
  exact ids_foldl_snapItem_mono x q _ h

/-- Snapshot release records survive when the playlist grows at the
end. -/
theorem entryMem_buildRecState_mono (p q : List PlaylistItem) (a : String)
    (e : RelEntry) (h : entryMem (buildRecState p) a e) :
    entryMem (buildRecState (p ++ q)) a e := by
  unfold buildRecState at h ⊢
  rw [List.foldl_append]
  exact entryMem_foldl_snapItem_mono a e q _ h

/-- The heart of the idempotence argument: if the first run from state
`s` issues only additions, all of whose tracks appear as items of `p1`,
and `s`'s id set and release-record names are covered by `p1`'s
snapshot, then the second run over `p1`'s snapshot skips every candidate
and issues no mutation. -/
theorem runAdds_second_skip (env : String → List PTrack)
    (p1 : List PlaylistItem) :
    ∀ (rs : List Release) (s : RecState),
      (∀ r ∈ rs, ∀ ft ftId, resolveFirst env r = some (ft, ftId) →
        r.artist_id ∈ ft.artists ∧ r.artist_id ≠ "") →
      (∀ m ∈ (runAdds env s rs).2, ∃ t, m = Mut.addTrack t) →
      (∀ t, Mut.addTrack t ∈ (runAdds env s rs).2 →
        (⟨some t, none⟩ : PlaylistItem) ∈ p1) →
      (∀ x ∈ s.existing_track_ids,
        x ∈ (buildRecState p1).existing_track_ids) →
      (∀ a e, entryMem s a e →
        ∃ e', entryMem (buildRecState p1) a e' ∧
          e'.track_name = e.track_name) →
      runAdds env (buildRecState p1) rs = (buildRecState p1, []) := by
  intro rs
  induction rs with
  | nil =>
    intro s _ _ _ _ _
    rfl
  | cons r rs ih =>
    intro s hTag hAdds hInP1 hIds hEnt
    have hAddsHead : ∀ m ∈ (processOne env s r).2, ∃ t, m = Mut.addTrack t :=
      fun m hm => hAdds m (List.mem_append_left _ hm)
    have hAddsTail : ∀ m ∈ (runAdds env (processOne env s r).1 rs).2,
        ∃ t, m = Mut.addTrack t :=
      fun m hm => hAdds m (List.mem_append_right _ hm)
    have hInP1Head : ∀ t, Mut.addTrack t ∈ (processOne env s r).2 →
        (⟨some t, none⟩ : PlaylistItem) ∈ p1 :=
      fun t hm => hInP1 t (List.mem_append_left _ hm)
    have hInP1Tail : ∀ t, Mut.addTrack t ∈ (runAdds env (processOne env s r).1 rs).2 →
        (⟨some t, none⟩ : PlaylistItem) ∈ p1 :=
      fun t hm => hInP1 t (List.mem_append_right _ hm)
    have hTagTail : ∀ r' ∈ rs, ∀ ft ftId,
        resolveFirst env r' = some (ft, ftId) →
        r'.artist_id ∈ ft.artists ∧ r'.artist_id ≠ "" :=
      fun r' hr' => hTag r' (List.mem_cons_of_mem r hr')
    have hcomb : ∀ (hT : processOne env (buildRecState p1) r = (buildRecState p1, []))
        (hrest : runAdds env (buildRecState p1) rs = (buildRecState p1, [])),
        runAdds env (buildRecState p1) (r :: rs) = (buildRecState p1, []) := by
      intro hT hrest
      have hdef : runAdds env (buildRecState p1) (r :: rs) =
          ((runAdds env (processOne env (buildRecState p1) r).1 rs).1,
           (processOne env (buildRecState p1) r).2 ++
             (runAdds env (processOne env (buildRecState p1) r).1 rs).2) := rfl
      rw [hdef, hT]
      simp [hrest]
    rcases processOne_cases env s r with ⟨heq, hreason⟩ | ⟨old, hrem⟩ |
      ⟨ft, ftId, hres, hnot, hdupf, h2, hids3, hrel5⟩
    · -- the head candidate was a no-op skip in the first run
      have hT : processOne env (buildRecState p1) r = (buildRecState p1, []) := by
        rcases hreason with hres | ⟨ft, ftId, hres, hmem⟩ | ⟨ft, ftId, hres, hdup⟩
        · exact processOne_skip_none env _ r hres
        · exact processOne_skip_exact env _ r ft ftId hres (hIds ftId hmem)
        · by_cases hmemT : ftId ∈ (buildRecState p1).existing_track_ids
          · exact processOne_skip_exact env _ r ft ftId hres hmemT
          · apply processOne_skip_dup env _ r ft ftId hres hmemT
            unfold hasDupName at hdup ⊢
            rw [List.any_eq_true] at hdup ⊢
            obtain ⟨e, he, hn⟩ := hdup
            obtain ⟨e', he', hname⟩ := hEnt r.artist_id e he
            refine ⟨e', he', ?_⟩
            rw [hname]
            exact hn
      refine hcomb hT (ih s hTagTail ?_ ?_ hIds hEnt)
      · intro m hm
        apply hAdds m
        have : (runAdds env s (r :: rs)).2 =
            (processOne env s r).2 ++ (runAdds env (processOne env s r).1 rs).2 := rfl
        rw [this, heq]
        simpa using hm
      · intro t hm
        apply hInP1 t
        have : (runAdds env s (r :: rs)).2 =
            (processOne env s r).2 ++ (runAdds env (processOne env s r).1 rs).2 := rfl
        rw [this, heq]
        simpa using hm
    · -- the first run issued a removal: excluded by hypothesis
      obtain ⟨t, ht⟩ := hAddsHead _ hrem
      exact absurd ht (by simp)
    · -- the head candidate was a pure addition in the first run
      have hitem : (⟨some ft, none⟩ : PlaylistItem) ∈ p1 := by
        apply hInP1Head ft
        rw [h2]
        exact List.mem_singleton.mpr rfl
      obtain ⟨hftid, hftne⟩ := resolveFirst_id env r ft ftId hres
      have hmemT : ftId ∈ (buildRecState p1).existing_track_ids :=
        ids_foldl_snapItem_of_item ⟨some ft, none⟩ ft ftId rfl hftid hftne
          p1 initRecState hitem
      have hT : processOne env (buildRecState p1) r = (buildRecState p1, []) :=
        processOne_skip_exact env _ r ft ftId hres hmemT
      obtain ⟨hart, hartne⟩ := hTag r (List.mem_cons_self r rs) ft ftId hres
      refine hcomb hT (ih (processOne env s r).1 hTagTail hAddsTail hInP1Tail ?_ ?_)
      · intro x hx
        rw [hids3] at hx
        rcases (mem_setInsert _ _ _).mp hx with rfl | hx'
        · exact hmemT
        · exact hIds x hx'
      · intro a e he
        unfold entryMem at he
        rw [hrel5] at he
        rcases (entryMem_alAppend_iff _ _ _ _ _).mp he with he' | ⟨rfl, rfl⟩
        · exact hEnt a e he'
        · refine ⟨⟨pyNorm ft.album_name, ft.id, pyNorm ft.name⟩, ?_, rfl⟩
          exact entryMem_foldl_snapItem_of_item ⟨some ft, none⟩ ft r.artist_id rfl
            (List.mem_filter.mpr ⟨hart, by simpa using hartne⟩)
            p1 initRecState hitem

/-- C6 (amended): re-running the add phase on the same ranked candidate
list over the playlist state left by the first run issues no further
mutations, *provided* the first run issued no removals (no supersession)
and each candidate's representative track credits the candidate's artist.
(The unconditional claim is false: see the counterexample, where a
supersession in the first run re-enables a previously skipped duplicate.) -/
theorem add_phase_idempotent_of_no_removals (env : String → List PTrack)
    (p : List PlaylistItem) (rs : List Release)
    (hTag : ∀ r ∈ rs, ∀ ft ftId, resolveFirst env r = some (ft, ftId) →
      r.artist_id ∈ ft.artists ∧ r.artist_id ≠ "")
    (hNoRem : ∀ m ∈ (add_new_releases env p rs).2, ∃ t, m = Mut.addTrack t) :
    (add_new_releases env
      (applyMuts p (add_new_releases env p rs).2) rs).2 = [] := by
  have hp1 : applyMuts p (add_new_releases env p rs).2 =
      p ++ addsToItems (add_new_releases env p rs).2 :=
    applyMuts_of_all_adds _ p hNoRem
  have hmain := runAdds_second_skip env
    (applyMuts p (add_new_releases env p rs).2) rs (buildRecState p)
    hTag hNoRem ?_ ?_ ?_
  · show (runAdds env
      (buildRecState (applyMuts p (add_new_releases env p rs).2)) rs).2 = []
    rw [hmain]
  · intro t hm
    rw [hp1]
    apply List.mem_append_right
    unfold addsToItems
    rw [List.mem_filterMap]
    exact ⟨Mut.addTrack t, hm, rfl⟩
  · intro x hx
    rw [hp1]
    exact ids_buildRecState_mono p _ x hx
  · intro a e he
    rw [hp1]
    exact ⟨e, entryMem_buildRecState_mono p _ a e he, rfl⟩

/-- Witness for `add_phase_idempotent_of_no_removals`: an empty playlist
and one candidate; the first run adds its track, the second run skips it
and performs no mutation. -/
theorem add_phase_idempotent_of_no_removals_witness :
    (add_new_releases
      (fun aid => if aid = "x"
        then [⟨some "t1", "Song", "Alb", ["A"], none⟩] else [])
      (applyMuts []
        (add_new_releases
          (fun aid => if aid = "x"
            then [⟨some "t1", "Song", "Alb", ["A"], none⟩] else [])
          [] [⟨"Alb", "Art", "A", .single, "x", 2, 0, 0, "d"⟩]).2)
      [⟨"Alb", "Art", "A", .single, "x", 2, 0, 0, "d"⟩]).2 = [] := by
  apply add_phase_idempotent_of_no_removals
  · intro r hr ft ftId hres
    rcases List.mem_singleton.mp hr with rfl
    have h2 : (some ((⟨some "t1", "Song", "Alb", ["A"], none⟩ : PTrack), "t1") :
        Option (PTrack × String)) = some (ft, ftId) := hres
    have h3 := Option.some.inj h2
    rw [Prod.mk.injEq] at h3
    obtain ⟨rfl, rfl⟩ := h3
    exact ⟨by decide, by decide⟩
  · intro m hm
    have hm' : m ∈ [Mut.addTrack ⟨some "t1", "Song", "Alb", ["A"], none⟩] := hm
    rcases List.mem_singleton.mp hm' with rfl
    exact ⟨_, rfl⟩

end ReleaseRadar
